import Mathlib

/-!
Verification development for the keti-tsn-ms protocol engine.

The definitions below are shallow embeddings of the JavaScript sources:
`coap-client.js` (CoAP message codec and request correlator),
`mvdct.js` and the unnamed CoAP client variant (stream reassembler),
`web-server-mup1.js` (serial transport lifecycle).
Bytes are modelled as `Nat` (all inputs of interest are < 256), buffers as
`List Nat`, and the external CBOR codec is kept abstract: the option payload
carried around is the byte string handed to (or produced by) the codec.
-/

/-- Modelled from the spec: the MUP1 start-of-frame marker byte. The spec
(§4.1, §6) leaves the concrete value abstract ("start marker byte"); the
frame codec source (`mup1-node.js`) is not part of the given sources, so a
fixed representative value is used. No theorem depends on the value beyond
`SOF ≠ EOF` and both being distinct from ASCII-hex checksum characters. -/
def SOF : Nat := 62

/-- Modelled from the spec: the MUP1 end-of-frame marker byte (see `SOF`). -/
def EOF : Nat := 60

/-! ## CoAP message codec, from `coap-client.js` -/

/-- JavaScript `String.prototype.split` with a single-character separator,
on the character list of the string (`"".split(s)` gives `[""]`). -/
def splitChar (sep : Char) : List Char → List (List Char)
  | [] => [[]]
  | c :: cs =>
    let r := splitChar sep cs
    if c = sep then [] :: r
    else
      match r with
      | s :: rest => (c :: s) :: rest
      | [] => [[c]]

/-- One Uri-Path option of `encodeOptions` (`coap-client.js` lines 83-126),
including the `firstByte` truthiness quirk of the extended-format branch. -/
def encodeSegment (prevOption : Nat) (segment : List Char) : List Nat :=
  let delta := 11 - prevOption
  let length := segment.length
  let hdr :=
    if delta < 13 ∧ length < 13 then
      [(delta <<< 4) ||| length]
    else
      let pre_fb : List Nat × Nat :=
        if delta < 13 then ([], delta <<< 4)
        else if delta < 269 then ([13 <<< 4, delta - 13], 0)
        else ([14 <<< 4, (delta - 269) >>> 8, (delta - 269) &&& 255], 0)
      let pre := pre_fb.1
      let fb := pre_fb.2
      let post :=
        if length < 13 then
          if fb ≠ 0 then [fb ||| length] else []
        else if length < 269 then
          (if fb ≠ 0 then [fb ||| 13] else []) ++ [length - 13]
        else
          (if fb ≠ 0 then [fb ||| 14] else []) ++
            [(length - 269) >>> 8, (length - 269) &&& 255]
      pre ++ post
  hdr ++ segment.map Char.toNat

/-- One Uri-Query option of `encodeOptions` (`coap-client.js` lines 137-150). -/
def encodeQuery (prevOption : Nat) (q : List Char) : List Nat :=
  let qBytes := q.map Char.toNat
  let qDelta := 15 - prevOption
  let hdr :=
    if qDelta < 13 ∧ qBytes.length < 13 then
      [(qDelta <<< 4) ||| qBytes.length]
    else
      [((if qDelta < 13 then qDelta else 13) <<< 4) ||| 13, qBytes.length - 13]
  hdr ++ qBytes

/-- `encodeOptions` of `coap-client.js` (lines 75-154): Uri-Path options for
the non-empty `/`-segments, then Content-Format 60 (application/cbor), then
Uri-Query options for the `&`-parts of the query string. -/
def encodeOptions (uri : List Char) : List Nat :=
  let parts := splitChar '?' uri
  let pathPart := parts.getD 0 []
  let queryPart := parts.getD 1 []
  let segments := (splitChar '/' pathPart).filter (· ≠ [])
  let afterPath :=
    segments.foldl (fun acc seg => (acc.1 ++ encodeSegment acc.2 seg, 11)) ([], 0)
  let delta := 12 - afterPath.2
  let afterCF := (afterPath.1 ++ [(delta <<< 4) ||| 1, 60], 12)
  if queryPart ≠ [] then
    let queries := (splitChar '&' queryPart).filter (· ≠ [])
    (queries.foldl (fun acc q => (acc.1 ++ encodeQuery acc.2 q, 15)) afterCF).1
  else
    afterCF.1

/-- `buildMessage` of `coap-client.js` (lines 39-70): 4-byte header
(version 1, Confirmable, token length 0), options, then payload marker and
the CBOR-encoded payload bytes.  The CBOR encoding is external, so the
payload argument is the byte string the codec produced. -/
def buildMessage (mid method : Nat) (uri : List Char) (payload : Option (List Nat)) : List Nat :=
  let h0 := (1 <<< 6) ||| (0 <<< 4) ||| 0
  [h0, method, (mid >>> 8) &&& 255, mid &&& 255] ++
    encodeOptions uri ++
    (match payload with
     | some pb => 255 :: pb
     | none => [])

/-- First index of the value `v` in `l`, i.e. JavaScript `indexOf`. -/
def idxOf (v : Nat) : List Nat → Option Nat
  | [] => none
  | a :: l => if a = v then some 0 else (idxOf v l).map (· + 1)

/-- JavaScript `indexOf(v, start)`: first index `≥ start` holding `v`. -/
def idxFrom (v start : Nat) (l : List Nat) : Option Nat :=
  (idxOf v (l.drop start)).map (· + start)

/-- The payload scan of `parseResponse` (`coap-client.js` lines 179-186):
`payloadStart` is one past the first byte equal to `0xFF` at or after
`offset`, or the end of the message when none occurs. -/
def scanFF (data : List Nat) (offset : Nat) : Nat :=
  match idxFrom 255 offset data with
  | some i => i + 1
  | none => data.length

/-- Result record of `parseResponse` (`coap-client.js` lines 199-206).
`payload` holds the byte string handed to the external CBOR decoder
(decode failure keeps the raw bytes, so the bytes are the observable). -/
structure Parsed where
  version : Nat
  mtype : Nat
  code : Nat
  messageId : Nat
  token : Nat
  payload : Option (List Nat)
deriving DecidableEq, Repr

/-- `parseResponse` of `coap-client.js` (lines 159-207): reads the fixed
header, accumulates the token, then finds the payload by scanning for the
first `0xFF` byte after the token (`none` models the thrown error on
messages shorter than 4 bytes). -/
def parseResponse (data : List Nat) : Option Parsed :=
  if data.length < 4 then none
  else
    let b0 := data.getD 0 0
    let version := (b0 >>> 6) &&& 3
    let mtype := (b0 >>> 4) &&& 3
    let tkl := b0 &&& 15
    let code := data.getD 1 0
    let messageId := ((data.getD 2 0) <<< 8) ||| data.getD 3 0
    let token := ((data.drop 4).take tkl).foldl (fun a b => (a <<< 8) ||| b) 0
    let offset := 4 + tkl
    let payloadStart := scanFF data offset
    let payload := if payloadStart < data.length then some (data.drop payloadStart) else none
    some ⟨version, mtype, code, messageId, token, payload⟩

/-- `METHODS.GET` of `coap-client.js`. -/
def METHODS_GET : Nat := 1

/-- `METHODS.FETCH` of `coap-client.js`. -/
def METHODS_FETCH : Nat := 5

/-- `get` of `coap-client.js` (lines 257-263): builds a FETCH message on the
fixed URI `"c?d=a"` whose CBOR payload is the one-element array `[uri]`
(`enc` is the external CBOR encoder applied to that array). -/
def getRequest (enc : List (List Char) → List Nat) (mid : Nat) (uri : List Char) : List Nat :=
  buildMessage mid METHODS_FETCH "c?d=a".toList (some (enc [uri]))

/-! ## Spec-side structural option walk (for claim C1)

`Modelled from the spec:` §4.2 requires `parse` to walk the options using
their own delta/length nibble encoding (0-12 inline, 13 = one extension
byte holding value − 13, 14 = two extension bytes holding value − 269
big-endian, 15 reserved/illegal) and to treat a `0xFF` byte as the payload
marker only after all options have been structurally passed.  No source
file implements this walk, so it is defined here from the spec's words as
the reference against which `parseResponse` is compared. -/

/-- Decode one nibble of an option header per spec §4.2: 0-12 inline,
13 = one extension byte (+13), 14 = two extension bytes (+269), 15 illegal. -/
def readExt (nib : Nat) (bytes : List Nat) : Option (Nat × List Nat) :=
  if nib ≤ 12 then some (nib, bytes)
  else if nib = 13 then
    match bytes with
    | e :: r => some (e + 13, r)
    | [] => none
  else if nib = 14 then
    match bytes with
    | e1 :: e2 :: r => some (e1 * 256 + e2 + 269, r)
    | _ => none
  else none

/-- Modelled from the spec: structurally walk the options section, returning
the decoded `(optionNumber, value)` list and the payload bytes after the
true `0xFF` marker (none when the message ends with the options). -/
def walkOptions : Nat → List Nat → Nat → Option (List (Nat × List Nat) × Option (List Nat))
  | _, [], _ => some ([], none)
  | 0, _ :: _, _ => none
  | fuel + 1, b :: rest, prev =>
    if b = 255 then some ([], some rest)
    else
      match readExt (b >>> 4) rest with
      | none => none
      | some dr =>
        match readExt (b &&& 15) dr.2 with
        | none => none
        | some lr =>
          if lr.1 ≤ lr.2.length then
            match walkOptions fuel (lr.2.drop lr.1) (prev + dr.1) with
            | some res => some ((prev + dr.1, lr.2.take lr.1) :: res.1, res.2)
            | none => none
          else none

/-- Modelled from the spec: full structural parse of the options-and-payload
region of a CoAP message (header and token skipped as in §4.2). -/
def structuralParse (data : List Nat) : Option (List (Nat × List Nat) × Option (List Nat)) :=
  if data.length < 4 then none
  else walkOptions data.length (data.drop (4 + (data.getD 0 0 &&& 15))) 0

/-! ## Request correlator, from `coap-client.js` and the unnamed client -/

/-- Primitive observable actions of the correlator: deleting a pending-table
entry and settling a future.  A handler's actions are listed in program
order, so "removed before settled" is visible as list order. -/
inductive Act where
  | del (mid : Nat)
  | resolve (mid : Nat) (payload : Option (List Nat))
  | reject (mid : Nat) (code : Nat) (payload : Option (List Nat))
  | rejectTimeout (mid : Nat)
deriving DecidableEq, Repr

/-- Whether an action settles the future of message ID `mid`. -/
def isSettleFor (mid : Nat) : Act → Bool
  | .resolve m _ => m = mid
  | .reject m _ _ => m = mid
  | .rejectTimeout m => m = mid
  | .del _ => false

/-- `handleResponse` of `coap-client.js` (lines 229-252): parse the data
(a parse error is caught and does nothing), look the message ID up in the
pending table, and if present delete the entry and then resolve (response
class `code / 32 = 2`) or reject (any other class, carrying code and
payload) its future; if absent, do nothing. -/
def handleResponse (st : List Nat) (data : List Nat) : List Nat × List Act :=
  match parseResponse data with
  | none => (st, [])
  | some r =>
    if r.messageId ∈ st then
      (st.erase r.messageId,
        [Act.del r.messageId,
         if r.code / 32 = 2 then Act.resolve r.messageId r.payload
         else Act.reject r.messageId r.code r.payload])
    else (st, [])

/-- The timeout callback registered by `registerRequest` (`coap-client.js`
lines 217-222) and by `request` (unnamed client lines 58-63): if the entry
is still present, delete it and then reject with a timeout error. -/
def timeoutFire (st : List Nat) (mid : Nat) : List Nat × List Act :=
  if mid ∈ st then (st.erase mid, [Act.del mid, Act.rejectTimeout mid])
  else (st, [])

/-- Events the single-threaded correlator reacts to. -/
inductive Ev where
  | response (data : List Nat)
  | timeout (mid : Nat)

/-- One event step of the correlator. -/
def stepEv (st : List Nat) : Ev → List Nat × List Act
  | .response data => handleResponse st data
  | .timeout mid => timeoutFire st mid

/-- Run the correlator over an event sequence, collecting all actions. -/
def runEv (st : List Nat) : List Ev → List Nat × List Act
  | [] => (st, [])
  | e :: es =>
    let r := stepEv st e
    let r2 := runEv r.1 es
    (r2.1, r.2 ++ r2.2)

/-! ## Message-ID allocators -/

/-- The allocator of the unnamed client's `request` (lines 44-45):
`mid = messageId++; if (messageId > 0xFFFF) messageId = 1`.  Returns the
allocated ID and the new counter. -/
def p4Alloc (c : Nat) : Nat × Nat :=
  (c, if c + 1 > 65535 then 1 else c + 1)

/-- The allocator of `buildMessage` in `coap-client.js` (line 52):
`mid = this.messageId++` with no wraparound. -/
def ccAlloc (c : Nat) : Nat × Nat :=
  (c, c + 1)

/-- Counter and pending-ID list of the unnamed client, for send-only runs. -/
structure P4SendState where
  counter : Nat
  pending : List Nat
deriving DecidableEq, Repr

/-- One send with no intervening response: allocate an ID and register it. -/
def p4Send (st : P4SendState) : P4SendState :=
  ⟨(p4Alloc st.counter).2, st.pending ++ [(p4Alloc st.counter).1]⟩

/-- State of the unnamed client after `n` sends from its initial state
(`messageId = 1`, empty pending table) with no responses or timeouts. -/
def p4SendN : Nat → P4SendState
  | 0 => ⟨1, []⟩
  | n + 1 => p4Send (p4SendN n)

/-- Counter of `coap-client.js` after `n` sends (initially 1). -/
def ccSendN : Nat → Nat
  | 0 => 1
  | n + 1 => (ccAlloc (ccSendN n)).2

/-! ## Transport lifecycle, from `web-server-mup1.js` -/

/-- Connection flag and pending table visible to the serial handlers. -/
structure SrvState where
  isConnected : Bool
  pending : List Nat
deriving DecidableEq, Repr

/-- The `serial.on('error')` handler of `web-server-mup1.js` (lines 78-81):
it only clears the connected flag; no pending request is touched and no
future is settled. -/
def onSerialError (st : SrvState) : SrvState × List Act :=
  (SrvState.mk false st.pending, [])

/-- The `serial.on('close')` handler of `web-server-mup1.js` (lines 83-86):
identical effect to the error handler. -/
def onSerialClose (st : SrvState) : SrvState × List Act :=
  (SrvState.mk false st.pending, [])

/-! ## Frame decode and stream reassembly

The MUP1 frame decoder (`decodeFrame` of `mup1-node.js`) is not among the
given sources; only its callers are.  It is modelled from the spec (§4.1,
§6): locate the start marker and the end marker, extract the 4-character
checksum suffix, recompute the checksum over type + payload and fail on
mismatch.  The checksum algorithm itself is left abstract as a parameter
`chk`; no claim depends on it. -/

/-- Modelled from the spec: MUP1 frame decoder.  `chk t payload` is the
abstract 4-byte ASCII-hex checksum over type and payload; `none` models a
thrown `ChecksumError` (or structurally impossible frame). -/
def decodeFrame (chk : Nat → List Nat → List Nat) (fd : List Nat) : Option (Nat × List Nat) :=
  match fd with
  | s :: t :: rest =>
    if s = SOF then
      match idxOf EOF rest with
      | some i =>
        if fd.drop (fd.length - 4) = chk t (rest.take i) then some (t, rest.take i)
        else none
      | none => none
    else none
  | _ => none

/-- One iteration of the `handleData` while-loop shared by `mvdct.js`
(lines 61-110) and the unnamed client (lines 229-296): find the start
marker (discarding everything before it, or everything when absent), wait
while fewer than 8 bytes are buffered, find the end marker from index 2,
account for a doubled end marker, wait while the 4 checksum bytes are not
complete, otherwise slice off one frame.  `Sum.inl b` is a loop exit with
buffer `b`; `Sum.inr (fd, rest)` extracts frame bytes `fd` leaving `rest`. -/
def stepBuf (buf : List Nat) : List Nat ⊕ List Nat × List Nat :=
  match idxOf SOF buf with
  | none => Sum.inl []
  | some si =>
    let b := buf.drop si
    if b.length < 8 then Sum.inl b
    else
      match idxFrom EOF 2 b with
      | none => Sum.inl b
      | some ei =>
        let cs := if b.getD (ei + 1) 256 = EOF then ei + 2 else ei + 1
        let fe := cs + 4
        if b.length < fe then Sum.inl b
        else Sum.inr (b.take fe, b.drop fe)

/-- The full `handleData` loop, fuelled (each continuing iteration consumes
at least one byte, so fuel `> buf.length` is exact).  On a decode error
`mvdct.js` (line 108) resumes one byte past the start marker
(`dropFrame = false`), while the unnamed client (lines 260-261) has already
sliced the frame off and so drops it whole (`dropFrame = true`).  Returns
the final buffer and the successfully decoded frames in order. -/
def processBuf (dropFrame : Bool) (chk : Nat → List Nat → List Nat) :
    Nat → List Nat → List Nat × List (Nat × List Nat)
  | 0, buf => (buf, [])
  | fuel + 1, buf =>
    match stepBuf buf with
    | Sum.inl b => (b, [])
    | Sum.inr fdrest =>
      match decodeFrame chk fdrest.1 with
      | some fr =>
        let r := processBuf dropFrame chk fuel fdrest.2
        (r.1, fr :: r.2)
      | none =>
        processBuf dropFrame chk fuel
          (if dropFrame then fdrest.2 else fdrest.1.drop 1 ++ fdrest.2)

/-- `handleData` of `mvdct.js` (lines 56-111): append the chunk to the
receive buffer and run the frame loop; a decode error skips one byte past
the start marker. -/
def mvdctHandleData (chk : Nat → List Nat → List Nat) (st data : List Nat) :
    List Nat × List (Nat × List Nat) :=
  processBuf false chk ((st ++ data).length + 1) (st ++ data)

/-- `handleData` of the unnamed client (lines 225-297): append the chunk
and run the frame loop; the frame is sliced off before decoding, so a
decode error discards the whole extracted frame. -/
def part4HandleData (chk : Nat → List Nat → List Nat) (st data : List Nat) :
    List Nat × List (Nat × List Nat) :=
  processBuf true chk ((st ++ data).length + 1) (st ++ data)

/-- The byte string of an encoded MUP1 frame as the reassembler sees it:
start marker, type tag, payload body, end marker (doubled or not), then the
4 checksum characters. -/
def frameBytes (t : Nat) (body : List Nat) (dbl : Bool) (cb : List Nat) : List Nat :=
  SOF :: t :: body ++ (if dbl then [EOF, EOF] else [EOF]) ++ cb

/-- Well-formed wire frame per the spec's framing rules: the type tag is not
a marker byte, marker bytes inside the payload are escaped away (§4.1), the
checksum text is 4 ASCII-hex characters (hence not marker bytes), and the
frame is at least the 8-byte minimum the reassembler waits for. -/
def WFrame (t : Nat) (body : List Nat) (dbl : Bool) (cb : List Nat) : Prop :=
  t ≠ SOF ∧ t ≠ EOF ∧ SOF ∉ body ∧ EOF ∉ body ∧
    cb.length = 4 ∧ SOF ∉ cb ∧ EOF ∉ cb ∧ (dbl = false → body ≠ [])

instance (t : Nat) (body : List Nat) (dbl : Bool) (cb : List Nat) :
    Decidable (WFrame t body dbl cb) := by
  unfold WFrame
  exact inferInstance

/-- A concrete checksum function used by witnesses and counterexamples:
`"0000"` for an empty payload and `"1111"` otherwise. -/
def chk1 : Nat → List Nat → List Nat :=
  fun _ p => if p = [] then [48, 48, 48, 48] else [49, 49, 49, 49]

/-! ## Helper lemmas -/

theorem idxOf_eq_none_of_not_mem {v : Nat} {l : List Nat} (h : v ∉ l) : idxOf v l = none := by
  induction l with
  | nil => rfl
  | cons a l ih =>
    simp only [List.mem_cons, not_or] at h
    have hne : ¬(a = v) := fun he => h.1 he.symm
    simp only [idxOf, if_neg hne, ih h.2, Option.map_none']

theorem idxOf_cons_self (v : Nat) (l : List Nat) : idxOf v (v :: l) = some 0 := by
  simp [idxOf]

theorem idxOf_append_of_not_mem {v : Nat} {a : List Nat} (h : v ∉ a) (l : List Nat) :
    idxOf v (a ++ l) = (idxOf v l).map (· + a.length) := by
  induction a with
  | nil =>
    simp only [List.nil_append, List.length_nil]
    cases h2 : idxOf v l <;> simp
  | cons x a ih =>
    simp only [List.mem_cons, not_or] at h
    have hne : ¬(x = v) := fun he => h.1 he.symm
    rw [List.cons_append]
    simp only [idxOf]
    rw [if_neg hne, ih h.2]
    cases h2 : idxOf v l with
    | none => simp
    | some j =>
      simp only [Option.map_some', List.length_cons]
      exact congrArg some (by omega)

theorem idxOf_drop {v : Nat} : ∀ {l : List Nat} {i : Nat},
    idxOf v l = some i → (l.drop i).head? = some v := by
  intro l
  induction l with
  | nil => intro i h; simp [idxOf] at h
  | cons a l ih =>
    intro i h
    by_cases ha : a = v
    · subst ha
      rw [idxOf_cons_self] at h
      cases h
      rfl
    · simp only [idxOf, if_neg ha] at h
      cases hi : idxOf v l with
      | none => rw [hi] at h; simp at h
      | some j =>
        rw [hi] at h
        simp only [Option.map_some'] at h
        cases h
        simpa using ih hi

theorem length_frameBytes {t : Nat} {body : List Nat} {dbl : Bool} {cb : List Nat}
    (hcb : cb.length = 4) :
    (frameBytes t body dbl cb).length = body.length + (if dbl then 8 else 7) := by
  cases dbl with
  | true => simp [frameBytes, hcb]
  | false => simp [frameBytes, hcb]

theorem eight_le_length_frameBytes {t : Nat} {body : List Nat} {dbl : Bool} {cb : List Nat}
    (hcb : cb.length = 4) (hdbl : dbl = false → body ≠ []) :
    8 ≤ (frameBytes t body dbl cb).length := by
  rw [length_frameBytes hcb]
  cases dbl with
  | true => simp
  | false =>
    have hb : 0 < body.length := List.length_pos.mpr (hdbl rfl)
    simp only [Bool.false_eq_true, if_false]
    omega

theorem sof_ne_eof : SOF ≠ EOF := by decide

theorem stepBuf_frame {t : Nat} {body : List Nat} {dbl : Bool} {cb : List Nat}
    (hw : WFrame t body dbl cb) (p rest : List Nat) (hp : SOF ∉ p) :
    stepBuf (p ++ (frameBytes t body dbl cb ++ rest)) =
      Sum.inr (frameBytes t body dbl cb, rest) := by
  obtain ⟨ht1, ht2, hbs, hbe, hcb4, hcbs, hcbe, hdbl⟩ := hw
  have hws8 : 8 ≤ (frameBytes t body dbl cb).length := eight_le_length_frameBytes hcb4 hdbl
  have hlen : (frameBytes t body dbl cb ++ rest).length
      = (frameBytes t body dbl cb).length + rest.length := List.length_append _ _
  have h1 : idxOf SOF (p ++ (frameBytes t body dbl cb ++ rest)) = some p.length := by
    rw [idxOf_append_of_not_mem hp]
    have : frameBytes t body dbl cb ++ rest
        = SOF :: ((t :: (body ++ ((if dbl then [EOF, EOF] else [EOF]) ++ cb))) ++ rest) := by
      simp [frameBytes]
    rw [this, idxOf_cons_self]
    simp
  have hb : (p ++ (frameBytes t body dbl cb ++ rest)).drop p.length
      = frameBytes t body dbl cb ++ rest := List.drop_left p _
  have h8 : ¬((frameBytes t body dbl cb ++ rest).length < 8) := by omega
  cases dbl with
  | true =>
    have hA : frameBytes t body true cb ++ rest
        = SOF :: t :: (body ++ (EOF :: EOF :: (cb ++ rest))) := by
      simp [frameBytes]
    have hwslen : (frameBytes t body true cb).length = body.length + 8 := by
      rw [length_frameBytes hcb4]; simp
    have h2 : idxFrom EOF 2 (frameBytes t body true cb ++ rest) = some (body.length + 2) := by
      unfold idxFrom
      rw [hA]
      show (idxOf EOF (body ++ (EOF :: EOF :: (cb ++ rest)))).map (· + 2) = _
      rw [idxOf_append_of_not_mem hbe, idxOf_cons_self]
      simp
    have h3 : (frameBytes t body true cb ++ rest).getD (body.length + 2 + 1) 256 = EOF := by
      rw [hA]
      show (([SOF, t] ++ (body ++ (EOF :: EOF :: (cb ++ rest))))).getD (body.length + 2 + 1) 256 = EOF
      rw [List.getD_append_right _ _ _ _ (by simp only [List.length_cons, List.length_nil]; omega)]
      have e1 : body.length + 2 + 1 - [SOF, t].length = body.length + 1 := by simp
      rw [e1, List.getD_append_right _ _ _ _ (by omega)]
      have e2 : body.length + 1 - body.length = 1 := by omega
      rw [e2]
      rfl
    have hcs : (if (frameBytes t body true cb ++ rest).getD (body.length + 2 + 1) 256 = EOF
        then body.length + 2 + 2 else body.length + 2 + 1) = body.length + 2 + 2 := if_pos h3
    have hfe : body.length + 2 + 2 + 4 = (frameBytes t body true cb).length := by omega
    have h9 : ¬((frameBytes t body true cb ++ rest).length
        < (frameBytes t body true cb).length) := by omega
    simp only [stepBuf, h1, hb, if_neg h8, h2, hcs, hfe, if_neg h9,
      List.take_left, List.drop_left]
  | false =>
    have hA : frameBytes t body false cb ++ rest
        = SOF :: t :: (body ++ (EOF :: (cb ++ rest))) := by
      simp [frameBytes]
    have hwslen : (frameBytes t body false cb).length = body.length + 7 := by
      rw [length_frameBytes hcb4]; simp
    have h2 : idxFrom EOF 2 (frameBytes t body false cb ++ rest) = some (body.length + 2) := by
      unfold idxFrom
      rw [hA]
      show (idxOf EOF (body ++ (EOF :: (cb ++ rest)))).map (· + 2) = _
      rw [idxOf_append_of_not_mem hbe, idxOf_cons_self]
      simp
    have hcb0 : (cb ++ rest).getD 0 256 ≠ EOF := by
      match cb, hcb4 with
      | c0 :: cbtl, _ =>
        have : c0 ∈ c0 :: cbtl := List.mem_cons_self c0 cbtl
        simp only [List.cons_append, List.getD_cons_zero]
        exact fun he => hcbe (he ▸ this)
    have h3 : (frameBytes t body false cb ++ rest).getD (body.length + 2 + 1) 256 ≠ EOF := by
      rw [hA]
      show (([SOF, t] ++ (body ++ (EOF :: (cb ++ rest))))).getD (body.length + 2 + 1) 256 ≠ EOF
      rw [List.getD_append_right _ _ _ _ (by simp only [List.length_cons, List.length_nil]; omega)]
      have e1 : body.length + 2 + 1 - [SOF, t].length = body.length + 1 := by simp
      rw [e1, List.getD_append_right _ _ _ _ (by omega)]
      have e2 : body.length + 1 - body.length = 1 := by omega
      rw [e2]
      show (cb ++ rest).getD 0 256 ≠ EOF
      exact hcb0
    have hcs : (if (frameBytes t body false cb ++ rest).getD (body.length + 2 + 1) 256 = EOF
        then body.length + 2 + 2 else body.length + 2 + 1) = body.length + 2 + 1 := if_neg h3
    have hfe : body.length + 2 + 1 + 4 = (frameBytes t body false cb).length := by omega
    have h9 : ¬((frameBytes t body false cb ++ rest).length
        < (frameBytes t body false cb).length) := by omega
    simp only [stepBuf, h1, hb, if_neg h8, h2, hcs, hfe, if_neg h9,
      List.take_left, List.drop_left]

theorem decodeFrame_frameBytes {t : Nat} {body : List Nat} {dbl : Bool} {cb : List Nat}
    (hw : WFrame t body dbl cb) (chk : Nat → List Nat → List Nat) :
    decodeFrame chk (frameBytes t body dbl cb)
      = if cb = chk t body then some (t, body) else none := by
  obtain ⟨ht1, ht2, hbs, hbe, hcb4, hcbs, hcbe, hdbl⟩ := hw
  have hidx : idxOf EOF (body ++ ((if dbl then [EOF, EOF] else [EOF]) ++ cb))
      = some body.length := by
    rw [idxOf_append_of_not_mem hbe]
    cases dbl <;> simp [idxOf_cons_self]
  have htake : (body ++ ((if dbl then [EOF, EOF] else [EOF]) ++ cb)).take body.length
      = body := List.take_left body _
  have hfb : frameBytes t body dbl cb
      = SOF :: t :: (body ++ ((if dbl then [EOF, EOF] else [EOF]) ++ cb)) := by
    simp [frameBytes]
  have hdropcb : (SOF :: t :: (body ++ ((if dbl then [EOF, EOF] else [EOF]) ++ cb))).drop
      ((SOF :: t :: (body ++ ((if dbl then [EOF, EOF] else [EOF]) ++ cb))).length - 4)
      = cb := by
    have h2 : (SOF :: t :: (body ++ ((if dbl then [EOF, EOF] else [EOF]) ++ cb))).length - 4
        = ([SOF, t] ++ body ++ (if dbl then [EOF, EOF] else [EOF])).length := by
      cases dbl with
      | true => simp [hcb4]
      | false => simp [hcb4]
    have h1 : SOF :: t :: (body ++ ((if dbl then [EOF, EOF] else [EOF]) ++ cb))
        = ([SOF, t] ++ body ++ (if dbl then [EOF, EOF] else [EOF])) ++ cb := by
      simp
    rw [h2, h1, List.drop_left]
  rw [hfb]
  simp only [decodeFrame, if_true, hidx, htake, hdropcb]

theorem processBuf_nil (df : Bool) (chk : Nat → List Nat → List Nat) (f : Nat) :
    processBuf df chk f [] = ([], []) := by
  cases f <;> rfl

theorem processBuf_frame {t : Nat} {body : List Nat} {dbl : Bool} {cb : List Nat}
    {chk : Nat → List Nat → List Nat} (hw : WFrame t body dbl cb) (hcb : cb = chk t body)
    (p rest : List Nat) (hp : SOF ∉ p) (df : Bool) (f : Nat) :
    processBuf df chk (f + 1) (p ++ (frameBytes t body dbl cb ++ rest)) =
      ((processBuf df chk f rest).1, (t, body) :: (processBuf df chk f rest).2) := by
  simp only [processBuf, stepBuf_frame hw p rest hp, decodeFrame_frameBytes hw chk,
    if_pos hcb]

theorem processBuf_corrupt {t : Nat} {body : List Nat} {dbl : Bool} {cb : List Nat}
    {chk : Nat → List Nat → List Nat} (hw : WFrame t body dbl cb) (hcb : ¬(cb = chk t body))
    (p rest : List Nat) (hp : SOF ∉ p) (df : Bool) (f : Nat) :
    processBuf df chk (f + 1) (p ++ (frameBytes t body dbl cb ++ rest)) =
      processBuf df chk f
        (if df then rest else (frameBytes t body dbl cb).drop 1 ++ rest) := by
  simp only [processBuf, stepBuf_frame hw p rest hp, decodeFrame_frameBytes hw chk,
    if_neg hcb]

theorem stepBuf_take {t : Nat} {body : List Nat} {dbl : Bool} {cb : List Nat}
    (hw : WFrame t body dbl cb) {k : Nat} (hk1 : 1 ≤ k)
    (hk2 : k < (frameBytes t body dbl cb).length) :
    stepBuf ((frameBytes t body dbl cb).take k)
      = Sum.inl ((frameBytes t body dbl cb).take k) := by
  obtain ⟨ht1, ht2, hbs, hbe, hcb4, hcbs, hcbe, hdbl⟩ := hw
  have hfb : frameBytes t body dbl cb
      = SOF :: t :: (body ++ ((if dbl then [EOF, EOF] else [EOF]) ++ cb)) := by
    simp [frameBytes]
  obtain ⟨k1, rfl⟩ : ∃ k1, k = k1 + 1 := ⟨k - 1, by omega⟩
  have hss : (frameBytes t body dbl cb).take (k1 + 1)
      = SOF :: ((t :: (body ++ ((if dbl then [EOF, EOF] else [EOF]) ++ cb))).take k1) := by
    rw [hfb]
    rfl
  have hidx : idxOf SOF ((frameBytes t body dbl cb).take (k1 + 1)) = some 0 := by
    rw [hss, idxOf_cons_self]
  by_cases h8 : ((frameBytes t body dbl cb).take (k1 + 1)).length < 8
  · simp only [stepBuf, hidx, List.drop_zero, if_pos h8]
  · have hlk : ((frameBytes t body dbl cb).take (k1 + 1)).length = k1 + 1 := by
      rw [List.length_take]
      omega
    obtain ⟨k2, rfl⟩ : ∃ k2, k1 = k2 + 1 := ⟨k1 - 1, by omega⟩
    have htake2 : (frameBytes t body dbl cb).take (k2 + 1 + 1)
        = SOF :: t :: ((body ++ ((if dbl then [EOF, EOF] else [EOF]) ++ cb)).take k2) := by
      rw [hfb]
      rfl
    by_cases hA : k2 ≤ body.length
    · have hYt : (body ++ ((if dbl then [EOF, EOF] else [EOF]) ++ cb)).take k2
          = body.take k2 := by
        rw [List.take_append_eq_append_take]
        have : k2 - body.length = 0 := by omega
        rw [this]
        simp
      have hnone : idxOf EOF ((body ++ ((if dbl then [EOF, EOF] else [EOF]) ++ cb)).take k2)
          = none := by
        rw [hYt]
        exact idxOf_eq_none_of_not_mem (fun hm => hbe (List.mem_of_mem_take hm))
      have hif : idxFrom EOF 2 ((frameBytes t body dbl cb).take (k2 + 1 + 1)) = none := by
        unfold idxFrom
        rw [htake2]
        show (idxOf EOF ((body ++ ((if dbl then [EOF, EOF] else [EOF]) ++ cb)).take k2)).map
          (· + 2) = none
        rw [hnone]
        rfl
      simp only [stepBuf, hidx, List.drop_zero, if_neg h8, hif]
    · have hYt : (body ++ ((if dbl then [EOF, EOF] else [EOF]) ++ cb)).take k2
          = body ++ (((if dbl then [EOF, EOF] else [EOF]) ++ cb).take (k2 - body.length)) := by
        rw [List.take_append_eq_append_take, List.take_of_length_le (by omega)]
      obtain ⟨m1, hm1⟩ : ∃ m1, k2 - body.length = m1 + 1 := ⟨k2 - body.length - 1, by omega⟩
      have hEc : ((if dbl then [EOF, EOF] else [EOF]) ++ cb).take (k2 - body.length)
          = EOF :: ((if dbl then ([EOF] : List Nat) else []) ++ cb).take m1 := by
        rw [hm1]
        cases dbl <;> rfl
      have hidx2 : idxOf EOF ((body ++ ((if dbl then [EOF, EOF] else [EOF]) ++ cb)).take k2)
          = some body.length := by
        rw [hYt, hEc, idxOf_append_of_not_mem hbe, idxOf_cons_self]
        simp
      have hif : idxFrom EOF 2 ((frameBytes t body dbl cb).take (k2 + 1 + 1))
          = some (body.length + 2) := by
        unfold idxFrom
        rw [htake2]
        show (idxOf EOF ((body ++ ((if dbl then [EOF, EOF] else [EOF]) ++ cb)).take k2)).map
          (· + 2) = some (body.length + 2)
        rw [hidx2]
        rfl
      have hwslen : (frameBytes t body dbl cb).length
          = body.length + (if dbl then 8 else 7) := length_frameBytes hcb4
      by_cases hk7 : k2 + 1 + 1 ≤ body.length + 6
      · have hlt : ((frameBytes t body dbl cb).take (k2 + 1 + 1)).length
            < (if ((frameBytes t body dbl cb).take (k2 + 1 + 1)).getD (body.length + 2 + 1) 256
                = EOF then body.length + 2 + 2 else body.length + 2 + 1) + 4 := by
          split_ifs <;> omega
        simp only [stepBuf, hidx, List.drop_zero, if_neg h8, hif, if_pos hlt]
      · have hdt : dbl = true := by
          cases dbl with
          | true => rfl
          | false =>
            exfalso
            simp only [Bool.false_eq_true, if_false] at hwslen
            omega
        subst hdt
        simp only [if_true] at hwslen hYt hEc htake2 hif hidx2
        have hk27 : k2 = body.length + 5 := by omega
        have hgd : ((frameBytes t body true cb).take (k2 + 1 + 1)).getD
            (body.length + 2 + 1) 256 = EOF := by
          rw [htake2]
          show (([SOF, t] ++ ((body ++ ([EOF, EOF] ++ cb)).take k2))).getD
            (body.length + 2 + 1) 256 = EOF
          rw [List.getD_append_right _ _ _ _ (by simp only [List.length_cons, List.length_nil]; omega)]
          have e1 : body.length + 2 + 1 - [SOF, t].length = body.length + 1 := by simp
          rw [e1]
          have hYt5 : (body ++ ([EOF, EOF] ++ cb)).take k2
              = body ++ (EOF :: EOF :: cb.take 3) := by
            rw [List.take_append_eq_append_take, List.take_of_length_le (by omega)]
            have : k2 - body.length = 5 := by omega
            rw [this]
            rfl
          rw [hYt5, List.getD_append_right _ _ _ _ (by omega)]
          have e2 : body.length + 1 - body.length = 1 := by omega
          rw [e2]
          rfl
        have hlt : ((frameBytes t body true cb).take (k2 + 1 + 1)).length
            < (if ((frameBytes t body true cb).take (k2 + 1 + 1)).getD (body.length + 2 + 1) 256
                = EOF then body.length + 2 + 2 else body.length + 2 + 1) + 4 := by
          rw [if_pos hgd]
          omega
        simp only [stepBuf, hidx, List.drop_zero, if_neg h8, hif, if_pos hlt]

theorem processBuf_take {t : Nat} {body : List Nat} {dbl : Bool} {cb : List Nat}
    (hw : WFrame t body dbl cb) (df : Bool) (chk : Nat → List Nat → List Nat) (f : Nat)
    {k : Nat} (hk : k < (frameBytes t body dbl cb).length) :
    processBuf df chk f ((frameBytes t body dbl cb).take k)
      = ((frameBytes t body dbl cb).take k, []) := by
  cases f with
  | zero => rfl
  | succ f =>
    cases Nat.eq_zero_or_pos k with
    | inl h0 =>
      subst h0
      simp only [List.take_zero]
      exact processBuf_nil df chk (f + 1)
    | inr hpos =>
      simp only [processBuf, stepBuf_take hw hpos hk]

theorem stepBuf_inl_spec {buf b : List Nat} (h : stepBuf buf = Sum.inl b) :
    b = [] ∨ b.head? = some SOF := by
  unfold stepBuf at h
  cases hidx : idxOf SOF buf with
  | none =>
    rw [hidx] at h
    simp only [Sum.inl.injEq] at h
    exact Or.inl h.symm
  | some si =>
    rw [hidx] at h
    dsimp only [] at h
    have hh : (buf.drop si).head? = some SOF := idxOf_drop hidx
    by_cases h8 : (buf.drop si).length < 8
    · rw [if_pos h8] at h
      simp only [Sum.inl.injEq] at h
      exact Or.inr (h ▸ hh)
    · rw [if_neg h8] at h
      cases hif : idxFrom EOF 2 (buf.drop si) with
      | none =>
        rw [hif] at h
        simp only [Sum.inl.injEq] at h
        exact Or.inr (h ▸ hh)
      | some ei =>
        rw [hif] at h
        dsimp only [] at h
        by_cases hlt : (buf.drop si).length
            < (if (buf.drop si).getD (ei + 1) 256 = EOF then ei + 2 else ei + 1) + 4
        · rw [if_pos hlt] at h
          simp only [Sum.inl.injEq] at h
          exact Or.inr (h ▸ hh)
        · rw [if_neg hlt] at h
          simp at h

theorem stepBuf_inr_spec {buf : List Nat} {fd rest : List Nat}
    (h : stepBuf buf = Sum.inr (fd, rest)) :
    7 ≤ fd.length ∧ fd.length + rest.length ≤ buf.length := by
  unfold stepBuf at h
  cases hidx : idxOf SOF buf with
  | none =>
    rw [hidx] at h
    simp at h
  | some si =>
    rw [hidx] at h
    dsimp only [] at h
    have hh := idxOf_drop hidx
    have hne : buf.drop si ≠ [] := by
      intro he
      rw [he] at hh
      simp at hh
    have hsi : si < buf.length := by
      have hpos : 0 < (buf.drop si).length := List.length_pos.mpr hne
      rw [List.length_drop] at hpos
      omega
    have hdlen : (buf.drop si).length = buf.length - si := List.length_drop si buf
    by_cases h8 : (buf.drop si).length < 8
    · rw [if_pos h8] at h
      simp at h
    · rw [if_neg h8] at h
      cases hif : idxFrom EOF 2 (buf.drop si) with
      | none =>
        rw [hif] at h
        simp at h
      | some ei =>
        rw [hif] at h
        dsimp only [] at h
        obtain ⟨j, hj⟩ : ∃ j, ei = j + 2 := by
          unfold idxFrom at hif
          cases hio : idxOf EOF ((buf.drop si).drop 2) with
          | none => rw [hio] at hif; simp at hif
          | some jj =>
            rw [hio] at hif
            simp only [Option.map_some', Option.some.injEq] at hif
            exact ⟨jj, by omega⟩
        by_cases hlt : (buf.drop si).length
            < (if (buf.drop si).getD (ei + 1) 256 = EOF then ei + 2 else ei + 1) + 4
        · rw [if_pos hlt] at h
          simp at h
        · rw [if_neg hlt] at h
          simp only [Sum.inr.injEq, Prod.mk.injEq] at h
          obtain ⟨hfd, hrest⟩ := h
          have hfe7 : 7 ≤ (if (buf.drop si).getD (ei + 1) 256 = EOF then ei + 2 else ei + 1) + 4 := by
            split_ifs <;> omega
          have hfeb : (if (buf.drop si).getD (ei + 1) 256 = EOF then ei + 2 else ei + 1) + 4
              ≤ (buf.drop si).length := by omega
          have hlfd : fd.length
              = (if (buf.drop si).getD (ei + 1) 256 = EOF then ei + 2 else ei + 1) + 4 := by
            rw [← hfd, List.length_take, Nat.min_eq_left hfeb]
          have hlrest : rest.length
              = (buf.drop si).length
                - ((if (buf.drop si).getD (ei + 1) 256 = EOF then ei + 2 else ei + 1) + 4) := by
            rw [← hrest, List.length_drop]
          constructor
          · omega
          · omega

theorem processBuf_buffer_inv (df : Bool) (chk : Nat → List Nat → List Nat) :
    ∀ f buf, buf.length < f →
      (processBuf df chk f buf).1 = [] ∨ ((processBuf df chk f buf).1).head? = some SOF := by
  intro f
  induction f with
  | zero => intro buf h; omega
  | succ f ih =>
    intro buf hlen
    cases hstep : stepBuf buf with
    | inl b =>
      simp only [processBuf, hstep]
      exact stepBuf_inl_spec hstep
    | inr fdrest =>
      obtain ⟨fd, rest⟩ := fdrest
      have hspec := stepBuf_inr_spec hstep
      cases hdec : decodeFrame chk fd with
      | some fr =>
        simp only [processBuf, hstep, hdec]
        exact ih rest (by omega)
      | none =>
        simp only [processBuf, hstep, hdec]
        have hlen2 : (if df then rest else fd.drop 1 ++ rest).length < f := by
          cases df
          · simp only [Bool.false_eq_true, if_false, List.length_append, List.length_drop]
            omega
          · simp only [if_true]
            omega
        exact ih _ hlen2

theorem processBuf_no_sof (df : Bool) (chk : Nat → List Nat → List Nat) (f : Nat)
    (buf : List Nat) (h : SOF ∉ buf) (hf : 1 ≤ f) :
    processBuf df chk f buf = ([], []) := by
  have hstep : stepBuf buf = Sum.inl [] := by
    unfold stepBuf
    rw [idxOf_eq_none_of_not_mem h]
  obtain ⟨f1, rfl⟩ : ∃ f1, f = f1 + 1 := ⟨f - 1, by omega⟩
  simp only [processBuf, hstep]

theorem processBuf_wait_small (df : Bool) (chk : Nat → List Nat → List Nat) (f : Nat)
    {buf : List Nat} (hh : buf.head? = some SOF) (h8 : buf.length < 8) :
    processBuf df chk (f + 1) buf = (buf, []) := by
  obtain ⟨tl, rfl⟩ : ∃ tl, buf = SOF :: tl := by
    cases buf with
    | nil => simp at hh
    | cons a tl =>
      simp only [List.head?_cons, Option.some.injEq] at hh
      exact ⟨tl, by rw [hh]⟩
  have hstep : stepBuf (SOF :: tl) = Sum.inl (SOF :: tl) := by
    simp only [stepBuf, idxOf_cons_self, List.drop_zero, if_pos h8]
  simp only [processBuf, hstep]

theorem handleResponse_noparse {st data : List Nat} (h : parseResponse data = none) :
    handleResponse st data = (st, []) := by
  simp [handleResponse, h]

theorem handleResponse_absent {st data : List Nat} {r : Parsed}
    (h : parseResponse data = some r) (hm : r.messageId ∉ st) :
    handleResponse st data = (st, []) := by
  simp [handleResponse, h, hm]

theorem handleResponse_present {st data : List Nat} {r : Parsed}
    (h : parseResponse data = some r) (hm : r.messageId ∈ st) :
    handleResponse st data = (st.erase r.messageId,
      [Act.del r.messageId,
       if r.code / 32 = 2 then Act.resolve r.messageId r.payload
       else Act.reject r.messageId r.code r.payload]) := by
  simp [handleResponse, h, hm]

theorem stepEv_settle_free (mid : Nat) {st : List Nat} (h : mid ∉ st) (e : Ev) :
    mid ∉ (stepEv st e).1 ∧ (stepEv st e).2.countP (isSettleFor mid) = 0 := by
  cases e with
  | response data =>
    cases hp : parseResponse data with
    | none => simp [stepEv, handleResponse_noparse hp, h]
    | some r =>
      by_cases hm : r.messageId ∈ st
      · have hne : ¬(r.messageId = mid) := fun he => h (he ▸ hm)
        constructor
        · intro hmem
          rw [stepEv, handleResponse_present hp hm] at hmem
          exact h (List.mem_of_mem_erase hmem)
        · rw [stepEv, handleResponse_present hp hm]
          by_cases hc : r.code / 32 = 2 <;>
            simp [hc, List.countP_cons, isSettleFor, hne]
      · simp [stepEv, handleResponse_absent hp hm, h]
  | timeout m =>
    by_cases hm : m ∈ st
    · have hne : ¬(m = mid) := fun he => h (he ▸ hm)
      constructor
      · intro hmem
        rw [stepEv, timeoutFire, if_pos hm] at hmem
        exact h (List.mem_of_mem_erase hmem)
      · rw [stepEv, timeoutFire, if_pos hm]
        simp [List.countP_cons, isSettleFor, hne]
    · simp [stepEv, timeoutFire, hm, h]

theorem runEv_settle_free (mid : Nat) :
    ∀ (es : List Ev) (st : List Nat), mid ∉ st →
      mid ∉ (runEv st es).1 ∧ (runEv st es).2.countP (isSettleFor mid) = 0 := by
  intro es
  induction es with
  | nil =>
    intro st h
    exact ⟨h, rfl⟩
  | cons e es ih =>
    intro st h
    have hs := stepEv_settle_free mid h e
    have hr := ih _ hs.1
    refine ⟨hr.1, ?_⟩
    simp only [runEv, List.countP_append, hs.2, hr.2]

theorem stepEv_settle_le (mid : Nat) {st : List Nat} (hn : st.Nodup) (e : Ev) :
    (stepEv st e).1.Nodup ∧ (stepEv st e).2.countP (isSettleFor mid) ≤ 1 ∧
      (1 ≤ (stepEv st e).2.countP (isSettleFor mid) → mid ∉ (stepEv st e).1) := by
  cases e with
  | response data =>
    cases hp : parseResponse data with
    | none =>
      rw [stepEv, handleResponse_noparse hp]
      exact ⟨hn, by simp, fun h => by simp at h⟩
    | some r =>
      by_cases hm : r.messageId ∈ st
      · rw [stepEv, handleResponse_present hp hm]
        refine ⟨hn.erase r.messageId, ?_, ?_⟩
        · by_cases hc : r.code / 32 = 2 <;>
            simp [hc, List.countP_cons, isSettleFor] <;>
            split_ifs <;> omega
        · intro hcnt
          by_cases hmid : r.messageId = mid
          · subst hmid
            exact hn.not_mem_erase
          · exfalso
            revert hcnt
            by_cases hc : r.code / 32 = 2 <;>
              simp [hc, List.countP_cons, isSettleFor, hmid]
      · rw [stepEv, handleResponse_absent hp hm]
        exact ⟨hn, by simp, fun h => by simp at h⟩
  | timeout m =>
    by_cases hm : m ∈ st
    · rw [stepEv, timeoutFire, if_pos hm]
      refine ⟨hn.erase m, ?_, ?_⟩
      · simp [List.countP_cons, isSettleFor]
        split_ifs <;> omega
      · intro hcnt
        by_cases hmid : m = mid
        · subst hmid
          exact hn.not_mem_erase
        · exfalso
          revert hcnt
          simp [List.countP_cons, isSettleFor, hmid]
    · rw [stepEv, timeoutFire, if_neg hm]
      exact ⟨hn, by simp, fun h => by simp at h⟩

theorem runEv_settle_le (mid : Nat) :
    ∀ (es : List Ev) (st : List Nat), st.Nodup →
      (runEv st es).2.countP (isSettleFor mid) ≤ 1 := by
  intro es
  induction es with
  | nil => intro st _; simp [runEv]
  | cons e es ih =>
    intro st hn
    have hs := stepEv_settle_le mid hn e
    simp only [runEv, List.countP_append]
    by_cases h1 : 1 ≤ (stepEv st e).2.countP (isSettleFor mid)
    · have hfree := runEv_settle_free mid es (stepEv st e).1 (hs.2.2 h1)
      omega
    · have := ih (stepEv st e).1 hs.1
      omega

theorem p4SendN_counter : ∀ n, (p4SendN n).counter = n % 65535 + 1 := by
  intro n
  induction n with
  | zero => rfl
  | succ n ih =>
    show (p4Send (p4SendN n)).counter = (n + 1) % 65535 + 1
    simp only [p4Send, p4Alloc, ih]
    split_ifs with h <;> omega

theorem p4SendN_mem_one : ∀ n, 1 ≤ n → 1 ∈ (p4SendN n).pending := by
  intro n
  induction n with
  | zero => intro h; omega
  | succ n ih =>
    intro _
    show 1 ∈ (p4Send (p4SendN n)).pending
    cases Nat.eq_zero_or_pos n with
    | inl h0 =>
      subst h0
      simp [p4Send, p4SendN, p4Alloc]
    | inr hpos =>
      simp only [p4Send, List.mem_append]
      exact Or.inl (ih hpos)

theorem ccSendN_eq : ∀ n, ccSendN n = n + 1 := by
  intro n
  induction n with
  | zero => rfl
  | succ n ih => simp only [ccSendN, ccAlloc, ih]

/-! ## Claim theorems -/

/-- Claim C1 (refuted, code bug): `parseResponse` does NOT structurally walk
the options; it treats the first `0xFF` byte after the token as the payload
marker.  On the message `[0x40, 69, 0, 1, 0xB2, 0xFF, 0x41, 0xFF, 0x01]`,
whose single option (number 11, length 2) has the value `[0xFF, 0x41]`,
the structural walk of the spec recovers options `[(11, [0xFF, 0x41])]` and
payload `[0x01]`, while `parseResponse` takes the `0xFF` inside the option
value as the marker and returns payload `[0x41, 0xFF, 0x01]`. -/
theorem C1_payload_scan_not_structural :
    parseResponse [64, 69, 0, 1, 178, 255, 65, 255, 1]
        = some ⟨1, 0, 69, 1, 0, some [65, 255, 1]⟩
      ∧ structuralParse [64, 69, 0, 1, 178, 255, 65, 255, 1]
        = some ([(11, [255, 65])], some [1])
      ∧ (some [65, 255, 1] : Option (List Nat)) ≠ some [1] := by
  refine ⟨by decide, by decide, by decide⟩

/-- The URI `"/" ++ 268 × "a"`: a single Uri-Path segment of length 268,
inside the length family `{0, 1, 12, 13, 268, 269}` of the round-trip claim. -/
def uri268 : List Char := '/' :: List.replicate 268 'a'

set_option maxRecDepth 400000 in
/-- Claim C2 (refuted, code bug): the round trip `parse (build method uri
payload)` fails.  For GET on a single 268-character segment with CBOR
payload bytes `[0x81, 0x02]`, the option length extension byte is
`268 − 13 = 0xFF`, `parseResponse`'s scan takes it for the payload marker,
and the recovered payload is the option value plus trailing bytes instead
of `[0x81, 0x02]`; URI segments are not recovered at all (`Parsed` has no
options field). The method code does survive in `code`. -/
theorem C2_roundtrip_fails :
    (parseResponse (buildMessage 1 1 uri268 (some [129, 2]))).map Parsed.code = some 1
      ∧ (parseResponse (buildMessage 1 1 uri268 (some [129, 2]))).map Parsed.payload
          = some (some (List.replicate 268 97 ++ [17, 60, 255, 129, 2]))
      ∧ List.replicate 268 97 ++ [17, 60, 255, 129, 2] ≠ [129, 2] := by
  refine ⟨by decide, by decide, by decide⟩

/-- Claim C9 (confirmed): for every CBOR encoder, message ID and URI,
`get` builds a FETCH message (method code 5, not GET = 1) on the fixed
URI `"c?d=a"` whose payload is the encoding of the one-element array
`[uri]`; the bytes after the 4-byte header are the options of `"c?d=a"`
followed by the payload marker and those payload bytes. -/
theorem C9_get_builds_fetch :
    ∀ (enc : List (List Char) → List Nat) (mid : Nat) (uri : List Char),
      getRequest enc mid uri
          = [64, METHODS_FETCH, (mid >>> 8) &&& 255, mid &&& 255]
            ++ ([177, 99, 17, 60, 51, 100, 61, 97] ++ (255 :: enc [uri]))
        ∧ METHODS_FETCH = 5 ∧ METHODS_FETCH ≠ METHODS_GET
        ∧ encodeOptions "c?d=a".toList = [177, 99, 17, 60, 51, 100, 61, 97] := by
  intro enc mid uri
  exact ⟨rfl, rfl, by decide, by decide⟩

/-- Claim C3 (confirmed): settlement happens at most once.  A matching
response deletes the pending entry first and settles second (the action
list is exactly `[del, settle]`); a timeout firing with the entry present
deletes first and rejects second; a response whose message ID is absent
settles nothing and leaves the state unchanged; and over any event
sequence from a duplicate-free pending table, at most one settlement is
ever emitted for any message ID. -/
theorem C3_at_most_once_settlement :
    (∀ (st data : List Nat) (r : Parsed), parseResponse data = some r →
        r.messageId ∈ st →
        handleResponse st data
          = (st.erase r.messageId,
             [Act.del r.messageId,
              if r.code / 32 = 2 then Act.resolve r.messageId r.payload
              else Act.reject r.messageId r.code r.payload]))
      ∧ (∀ (st : List Nat) (mid : Nat), mid ∈ st →
          timeoutFire st mid = (st.erase mid, [Act.del mid, Act.rejectTimeout mid]))
      ∧ (∀ (st data : List Nat) (r : Parsed), parseResponse data = some r →
          r.messageId ∉ st → handleResponse st data = (st, []))
      ∧ (∀ (st : List Nat) (mid : Nat) (es : List Ev), st.Nodup →
          (runEv st es).2.countP (isSettleFor mid) ≤ 1) := by
  refine ⟨?_, ?_, ?_, ?_⟩
  · intro st data r hp hm
    exact handleResponse_present hp hm
  · intro st mid hm
    rw [timeoutFire, if_pos hm]
  · intro st data r hp hm
    exact handleResponse_absent hp hm
  · intro st mid es hn
    exact runEv_settle_le mid es st hn

/-- Witness for C3 at the pending table `[3]` and the event sequence
"timeout 3, then a response for message ID 3": the timeout removes and
rejects, and the total number of settlements for ID 3 stays at most one. -/
theorem C3_witness :
    (3 : Nat) ∈ ([3] : List Nat) ∧ ([3] : List Nat).Nodup
      ∧ timeoutFire [3] 3 = (([3] : List Nat).erase 3, [Act.del 3, Act.rejectTimeout 3])
      ∧ (runEv [3] [Ev.timeout 3, Ev.response [64, 69, 0, 3]]).2.countP (isSettleFor 3) ≤ 1 :=
  ⟨by decide, by decide,
   C3_at_most_once_settlement.2.1 [3] 3 (by decide),
   C3_at_most_once_settlement.2.2.2 [3] 3 [Ev.timeout 3, Ev.response [64, 69, 0, 3]] (by decide)⟩

/-- Claim C5 (confirmed): a response whose message ID is absent (or that
does not parse) changes no state and settles nothing; a matching response
removes exactly its own entry (others untouched) and resolves with the
payload precisely when `code / 32 = 2`, otherwise rejects with the code
and payload. -/
theorem C5_response_classification :
    (∀ st data : List Nat, parseResponse data = none → handleResponse st data = (st, []))
      ∧ (∀ (st data : List Nat) (r : Parsed), parseResponse data = some r →
          r.messageId ∉ st → handleResponse st data = (st, []))
      ∧ (∀ (st data : List Nat) (r : Parsed), parseResponse data = some r →
          r.messageId ∈ st →
          (handleResponse st data).1 = st.erase r.messageId
            ∧ (st.Nodup → r.messageId ∉ (handleResponse st data).1)
            ∧ (∀ m : Nat, m ≠ r.messageId → (m ∈ (handleResponse st data).1 ↔ m ∈ st))
            ∧ (Act.resolve r.messageId r.payload ∈ (handleResponse st data).2 ↔ r.code / 32 = 2)
            ∧ (¬(r.code / 32 = 2) →
                (handleResponse st data).2
                  = [Act.del r.messageId, Act.reject r.messageId r.code r.payload])) := by
  refine ⟨?_, ?_, ?_⟩
  · intro st data h
    exact handleResponse_noparse h
  · intro st data r hp hm
    exact handleResponse_absent hp hm
  · intro st data r hp hm
    rw [handleResponse_present hp hm]
    refine ⟨rfl, ?_, ?_, ?_, ?_⟩
    · intro hn
      exact hn.not_mem_erase
    · intro m hne
      exact List.mem_erase_of_ne hne
    · constructor
      · intro hmem
        by_cases hc : r.code / 32 = 2
        · exact hc
        · simp [hc] at hmem
      · intro hc
        simp [hc]
    · intro hc
      simp [hc]

/-- Witness for C5: pending table `[1]`, a Content (code 69, class 2)
response with message ID 1: the entry is removed and a resolve action is
emitted because `69 / 32 = 2`. -/
theorem C5_witness :
    parseResponse [64, 69, 0, 1] = some ⟨1, 0, 69, 1, 0, none⟩
      ∧ (1 : Nat) ∈ ([1] : List Nat)
      ∧ (handleResponse [1] [64, 69, 0, 1]).1 = ([1] : List Nat).erase 1
      ∧ (Act.resolve 1 none ∈ (handleResponse [1] [64, 69, 0, 1]).2 ↔ (69 : Nat) / 32 = 2) := by
  have h := C5_response_classification.2.2 [1] [64, 69, 0, 1] ⟨1, 0, 69, 1, 0, none⟩
    (by decide) (by decide)
  exact ⟨by decide, by decide, h.1, h.2.2.2.1⟩

/-- Claim C4 (refuted, corrected): the unnamed client's allocator does wrap
within `[1, 65535]`, but it never checks liveness: the 65536-th send of a
send-only run reallocates ID 1 while the PendingRequest with ID 1 is still
live.  `coap-client.js`'s allocator does not even wrap: its 65536-th send
allocates 65536, outside `[1, 65535]`. -/
theorem C4_counterexample_id_reuse :
    (p4Alloc (p4SendN 65535).counter).1 = 1
      ∧ (1 : Nat) ∈ (p4SendN 65535).pending
      ∧ ccSendN 65535 = 65536 ∧ ¬(ccSendN 65535 ≤ 65535) := by
  have hc : (p4SendN 65535).counter = 1 := by
    rw [p4SendN_counter]
  refine ⟨?_, p4SendN_mem_one 65535 (by omega), ?_, ?_⟩
  · rw [hc]
    decide
  · rw [ccSendN_eq]
  · rw [ccSendN_eq]
    omega

/-- Claim C4 as amended: the unnamed client's counter after `n` sends is
`n % 65535 + 1`, hence every allocated ID lies in `[1, 65535]` and the
counter wraps from 65535 back to 1; no liveness check is performed (see
the counterexample). -/
theorem C4_amended_wrap_range :
    ∀ n : Nat,
      (p4SendN n).counter = n % 65535 + 1
        ∧ 1 ≤ (p4SendN n).counter ∧ (p4SendN n).counter ≤ 65535
        ∧ (p4Alloc (p4SendN n).counter).1 = (p4SendN n).counter
        ∧ (p4Alloc 65535).2 = 1 := by
  intro n
  have h := p4SendN_counter n
  refine ⟨h, by omega, by omega, rfl, by decide⟩

/-- Claim C6 (refuted, code bug): the serial error and close handlers only
clear the connected flag.  With one request (ID 5) pending, the handlers
leave it in the pending table and emit no settlement at all, so no pending
future is rejected with a transport error. -/
theorem C6_transport_error_settles_nothing :
    onSerialError (SrvState.mk true [5]) = (SrvState.mk false [5], [])
      ∧ (onSerialError (SrvState.mk true [5])).2.countP (isSettleFor 5) = 0
      ∧ (5 : Nat) ∈ (onSerialError (SrvState.mk true [5])).1.pending
      ∧ onSerialClose (SrvState.mk true [5]) = (SrvState.mk false [5], []) := by
  refine ⟨by decide, by decide, by decide, by decide⟩

theorem handle_full (df : Bool) (chk : Nat → List Nat → List Nat)
    {t : Nat} {body : List Nat} {dbl : Bool} {cb : List Nat}
    (hw : WFrame t body dbl cb) (hcb : cb = chk t body) :
    processBuf df chk ((frameBytes t body dbl cb).length + 1) (frameBytes t body dbl cb)
      = ([], [(t, body)]) := by
  have h := processBuf_frame hw hcb [] [] (by simp) df (frameBytes t body dbl cb).length
  rw [List.nil_append, List.append_nil] at h
  simp only [processBuf_nil] at h
  exact h

/-- Deliver a byte string in two successive chunks to a fresh `mvdct.js`
client: final buffer and all frames decoded across both calls. -/
def feedTwoM (chk : Nat → List Nat → List Nat) (c1 c2 : List Nat) :
    List Nat × List (Nat × List Nat) :=
  ((mvdctHandleData chk (mvdctHandleData chk [] c1).1 c2).1,
   (mvdctHandleData chk [] c1).2 ++ (mvdctHandleData chk (mvdctHandleData chk [] c1).1 c2).2)

/-- Deliver a byte string in two successive chunks to a fresh unnamed
client: final buffer and all frames decoded across both calls. -/
def feedTwoP (chk : Nat → List Nat → List Nat) (c1 c2 : List Nat) :
    List Nat × List (Nat × List Nat) :=
  ((part4HandleData chk (part4HandleData chk [] c1).1 c2).1,
   (part4HandleData chk [] c1).2 ++ (part4HandleData chk (part4HandleData chk [] c1).1 c2).2)

/-- Claim C8 (confirmed): splitting a well-formed frame whose checksum
matches at any byte offset into two delivery chunks yields exactly the one
decoded frame `(t, body)` with an empty final buffer, identically for
every split point and identical to one-chunk delivery, in both stream
processors; and while the buffer starts with the start marker but holds
fewer than the 8-byte minimum frame size, no bytes are consumed. -/
theorem C8_split_reassembly :
    ∀ (chk : Nat → List Nat → List Nat) (t : Nat) (body : List Nat) (dbl : Bool) (cb : List Nat),
      WFrame t body dbl cb → cb = chk t body →
      (∀ k, k ≤ (frameBytes t body dbl cb).length →
          feedTwoM chk ((frameBytes t body dbl cb).take k) ((frameBytes t body dbl cb).drop k)
              = ([], [(t, body)])
            ∧ feedTwoP chk ((frameBytes t body dbl cb).take k)
                ((frameBytes t body dbl cb).drop k)
              = ([], [(t, body)]))
        ∧ mvdctHandleData chk [] (frameBytes t body dbl cb) = ([], [(t, body)])
        ∧ part4HandleData chk [] (frameBytes t body dbl cb) = ([], [(t, body)])
        ∧ (∀ st data : List Nat, (st ++ data).head? = some SOF → (st ++ data).length < 8 →
            mvdctHandleData chk st data = (st ++ data, [])
              ∧ part4HandleData chk st data = (st ++ data, [])) := by
  intro chk t body dbl cb hw hcb
  have hfullM : mvdctHandleData chk [] (frameBytes t body dbl cb) = ([], [(t, body)]) := by
    simp only [mvdctHandleData, List.nil_append]
    exact handle_full false chk hw hcb
  have hfullP : part4HandleData chk [] (frameBytes t body dbl cb) = ([], [(t, body)]) := by
    simp only [part4HandleData, List.nil_append]
    exact handle_full true chk hw hcb
  refine ⟨?_, hfullM, hfullP, ?_⟩
  · intro k hk
    by_cases hlt : k < (frameBytes t body dbl cb).length
    · have h1M : mvdctHandleData chk [] ((frameBytes t body dbl cb).take k)
          = ((frameBytes t body dbl cb).take k, []) := by
        simp only [mvdctHandleData, List.nil_append]
        exact processBuf_take hw false chk _ hlt
      have h2M : mvdctHandleData chk ((frameBytes t body dbl cb).take k)
          ((frameBytes t body dbl cb).drop k) = ([], [(t, body)]) := by
        simp only [mvdctHandleData, List.take_append_drop]
        exact handle_full false chk hw hcb
      have h1P : part4HandleData chk [] ((frameBytes t body dbl cb).take k)
          = ((frameBytes t body dbl cb).take k, []) := by
        simp only [part4HandleData, List.nil_append]
        exact processBuf_take hw true chk _ hlt
      have h2P : part4HandleData chk ((frameBytes t body dbl cb).take k)
          ((frameBytes t body dbl cb).drop k) = ([], [(t, body)]) := by
        simp only [part4HandleData, List.take_append_drop]
        exact handle_full true chk hw hcb
      constructor
      · simp only [feedTwoM, h1M, h2M, List.nil_append]
      · simp only [feedTwoP, h1P, h2P, List.nil_append]
    · have hkeq : k = (frameBytes t body dbl cb).length := by omega
      subst hkeq
      have htk : (frameBytes t body dbl cb).take (frameBytes t body dbl cb).length
          = frameBytes t body dbl cb := List.take_length _
      have hdk : (frameBytes t body dbl cb).drop (frameBytes t body dbl cb).length
          = [] := List.drop_length _
      have hnilM : mvdctHandleData chk ([] : List Nat) ([] : List Nat) = ([], []) := by
        simp only [mvdctHandleData, List.nil_append, List.length_nil]
        exact processBuf_nil false chk 1
      have hnilP : part4HandleData chk ([] : List Nat) ([] : List Nat) = ([], []) := by
        simp only [part4HandleData, List.nil_append, List.length_nil]
        exact processBuf_nil true chk 1
      constructor
      · simp only [feedTwoM, htk, hdk, hfullM, hnilM, List.append_nil]
      · simp only [feedTwoP, htk, hdk, hfullP, hnilP, List.append_nil]
  · intro st data hh h8
    constructor
    · simp only [mvdctHandleData]
      exact processBuf_wait_small false chk (st ++ data).length hh h8
    · simp only [part4HandleData]
      exact processBuf_wait_small true chk (st ++ data).length hh h8

/-- Witness for C8 at the minimal well-formed frame `[62, 67, 60, 60, 48,
48, 48, 48]` with the concrete checksum `chk1`, split after 3 bytes. -/
theorem C8_witness :
    WFrame 67 [] true [48, 48, 48, 48] ∧ [48, 48, 48, 48] = chk1 67 []
      ∧ mvdctHandleData chk1 [] (frameBytes 67 [] true [48, 48, 48, 48]) = ([], [(67, [])])
      ∧ feedTwoM chk1 ((frameBytes 67 [] true [48, 48, 48, 48]).take 3)
          ((frameBytes 67 [] true [48, 48, 48, 48]).drop 3) = ([], [(67, [])]) :=
  ⟨by decide, by decide,
   (C8_split_reassembly chk1 67 [] true [48, 48, 48, 48] (by decide) (by decide)).2.1,
   ((C8_split_reassembly chk1 67 [] true [48, 48, 48, 48] (by decide) (by decide)).1 3
     (by decide)).1⟩

/-- Counterexample to claim C7: on the stream `[62, 65] ++ V` with `V` the
valid frame `[62, 67, 60, 60, 48, 48, 48, 48]`, the first extraction
covers the whole 10 bytes and fails its checksum.  Resuming one byte past
the discarded start marker (as `mvdct.js` does) finds and decodes `V`, but
the unnamed client's `handleData` has already sliced off the whole
extracted frame and decodes nothing: the two cited implementations
disagree, and the unnamed client does not resume one byte past the start
marker. -/
theorem C7_counterexample_resync_point :
    part4HandleData chk1 [] [62, 65, 62, 67, 60, 60, 48, 48, 48, 48] = ([], [])
      ∧ mvdctHandleData chk1 [] [62, 65, 62, 67, 60, 60, 48, 48, 48, 48] = ([], [(67, [])])
      ∧ decodeFrame chk1 [62, 65, 62, 67, 60, 60, 48, 48, 48, 48] = none
      ∧ decodeFrame chk1 [62, 67, 60, 60, 48, 48, 48, 48] = some (67, []) := by
  refine ⟨by decide, by decide, by decide, by decide⟩

/-- Claim C7 as amended (proved): neither processor ever aborts the
stream on a checksum error; `mvdct.js` resumes one byte past the discarded
start marker while the unnamed client discards the whole extracted frame;
in both, a well-formed corrupted frame (checksum mismatch) followed by a
valid frame yields exactly one decoded frame — the valid one. -/
theorem C7_amended_resync :
    ∀ (chk : Nat → List Nat → List Nat)
      (tc : Nat) (bodyc : List Nat) (dblc : Bool) (cbc : List Nat)
      (tv : Nat) (bodyv : List Nat) (dblv : Bool) (cbv : List Nat),
      WFrame tc bodyc dblc cbc → ¬(cbc = chk tc bodyc) →
      WFrame tv bodyv dblv cbv → cbv = chk tv bodyv →
      mvdctHandleData chk []
          (frameBytes tc bodyc dblc cbc ++ frameBytes tv bodyv dblv cbv)
          = ([], [(tv, bodyv)])
        ∧ part4HandleData chk []
          (frameBytes tc bodyc dblc cbc ++ frameBytes tv bodyv dblv cbv)
          = ([], [(tv, bodyv)]) := by
  intro chk tc bodyc dblc cbc tv bodyv dblv cbv hwc hcbc hwv hcbv
  have hnos : SOF ∉ (frameBytes tc bodyc dblc cbc).drop 1 := by
    obtain ⟨hct1, hct2, hcs, hce, hc4, hcs2, hce2, hcd⟩ := hwc
    have hC1 : (frameBytes tc bodyc dblc cbc).drop 1
        = tc :: (bodyc ++ ((if dblc then [EOF, EOF] else [EOF]) ++ cbc)) := by
      simp [frameBytes]
    rw [hC1]
    intro hmem
    simp only [List.mem_cons, List.mem_append] at hmem
    rcases hmem with h | h | h | h
    · exact hct1 h.symm
    · exact hcs h
    · cases dblc <;> simp at h <;> exact absurd h (by decide)
    · exact hcs2 h
  have hL1 : (frameBytes tc bodyc dblc cbc ++ frameBytes tv bodyv dblv cbv).length
      = ((frameBytes tc bodyc dblc cbc ++ frameBytes tv bodyv dblv cbv).length - 1) + 1 := by
    have h8 : 8 ≤ (frameBytes tc bodyc dblc cbc).length :=
      eight_le_length_frameBytes hwc.2.2.2.2.1 hwc.2.2.2.2.2.2.2
    rw [List.length_append]
    omega
  constructor
  · simp only [mvdctHandleData, List.nil_append]
    have hstep := processBuf_corrupt hwc hcbc [] (frameBytes tv bodyv dblv cbv) (by simp)
      false ((frameBytes tc bodyc dblc cbc ++ frameBytes tv bodyv dblv cbv).length)
    rw [List.nil_append] at hstep
    simp only [Bool.false_eq_true, if_false] at hstep
    rw [hstep, hL1]
    have hfr := processBuf_frame hwv hcbv ((frameBytes tc bodyc dblc cbc).drop 1) [] hnos
      false ((frameBytes tc bodyc dblc cbc ++ frameBytes tv bodyv dblv cbv).length - 1)
    rw [List.append_nil] at hfr
    rw [hfr]
    simp [processBuf_nil]
  · simp only [part4HandleData, List.nil_append]
    have hstep := processBuf_corrupt hwc hcbc [] (frameBytes tv bodyv dblv cbv) (by simp)
      true ((frameBytes tc bodyc dblc cbc ++ frameBytes tv bodyv dblv cbv).length)
    rw [List.nil_append] at hstep
    simp only [if_true] at hstep
    rw [hstep, hL1]
    have hfr := processBuf_frame hwv hcbv [] [] (by simp)
      true ((frameBytes tc bodyc dblc cbc ++ frameBytes tv bodyv dblv cbv).length - 1)
    rw [List.append_nil, List.nil_append] at hfr
    rw [hfr]
    simp [processBuf_nil]

/-- Witness for C7 as amended: a corrupted frame `[62, 67, 1, 2, 60, 48,
48, 48, 48]` (its `chk1` checksum should be `"1111"`) followed by the
valid frame `[62, 80, 60, 60, 48, 48, 48, 48]` decodes to exactly the
valid frame in both processors. -/
theorem C7_witness :
    WFrame 67 [1, 2] false [48, 48, 48, 48] ∧ ¬([48, 48, 48, 48] = chk1 67 [1, 2])
      ∧ WFrame 80 [] true [48, 48, 48, 48] ∧ [48, 48, 48, 48] = chk1 80 []
      ∧ mvdctHandleData chk1 []
          (frameBytes 67 [1, 2] false [48, 48, 48, 48] ++ frameBytes 80 [] true [48, 48, 48, 48])
          = ([], [(80, [])]) :=
  ⟨by decide, by decide, by decide, by decide,
   (C7_amended_resync chk1 67 [1, 2] false [48, 48, 48, 48] 80 [] true [48, 48, 48, 48]
     (by decide) (by decide) (by decide) (by decide)).1⟩

/-- Claim C10 (confirmed): after any `handleData` call, in both stream
processors, the receive buffer is empty or begins with the start-of-frame
byte; and when the input holds no start-of-frame byte at all, the whole
buffer is discarded (and nothing is decoded). -/
theorem C10_buffer_invariant :
    ∀ (chk : Nat → List Nat → List Nat) (buf data : List Nat),
      ((mvdctHandleData chk buf data).1 = []
          ∨ ((mvdctHandleData chk buf data).1).head? = some SOF)
        ∧ ((part4HandleData chk buf data).1 = []
            ∨ ((part4HandleData chk buf data).1).head? = some SOF)
        ∧ (SOF ∉ buf ++ data →
            mvdctHandleData chk buf data = ([], [])
              ∧ part4HandleData chk buf data = ([], [])) := by
  intro chk buf data
  refine ⟨?_, ?_, ?_⟩
  · simp only [mvdctHandleData]
    exact processBuf_buffer_inv false chk ((buf ++ data).length + 1) (buf ++ data) (by omega)
  · simp only [part4HandleData]
    exact processBuf_buffer_inv true chk ((buf ++ data).length + 1) (buf ++ data) (by omega)
  · intro h
    constructor
    · simp only [mvdctHandleData]
      exact processBuf_no_sof false chk ((buf ++ data).length + 1) (buf ++ data) h (by omega)
    · simp only [part4HandleData]
      exact processBuf_no_sof true chk ((buf ++ data).length + 1) (buf ++ data) h (by omega)

/-- Witness for C10: a buffer `[1, 2]` and chunk `[3]` containing no
start-of-frame byte are discarded entirely by both processors. -/
theorem C10_witness :
    SOF ∉ ([1, 2] ++ [3] : List Nat)
      ∧ mvdctHandleData chk1 [1, 2] [3] = ([], [])
      ∧ part4HandleData chk1 [1, 2] [3] = ([], []) :=
  ⟨by decide, (C10_buffer_invariant chk1 [1, 2] [3]).2.2 (by decide)⟩
